import Mathlib

/-!
Shallow embedding of `src/agentic_system.py`: a minimal ReAct agent loop.
The embedding models the Python string primitives used by `ReActAgent.run`
(`in`, `str.split`, `str.strip`, `re.search` with the fixed action pattern),
the tool registry dict, and the run loop itself, then proves the spec claims
about parsing, dispatch, error handling, the step budget and the transcript.
-/

namespace Agentic

/-- ASCII whitespace characters stripped by Python `str.strip()`
(the protocol text handled by the agent is ASCII). -/
def isPySpace (c : Char) : Bool :=
  c == ' ' || c == '\t' || c == '\n' || c == '\r' || c == '\x0b' || c == '\x0c'

/-- Test for the double-quote character, for modelling `str.strip('"')`. -/
def isQuote (c : Char) : Bool := c == '\"'

/-- Python `str.strip(chars)`: remove every leading and every trailing character
satisfying `p`; the two ends are stripped independently of each other. -/
def pyStripP (p : Char → Bool) (s : List Char) : List Char :=
  ((s.dropWhile p).reverse.dropWhile p).reverse

/-- Models `.strip()` as used on lines 130, 138 and 139 of the source. -/
def pyStrip (s : String) : String := ⟨pyStripP isPySpace s.data⟩

/-- Models `.strip('"')` as used on line 139 of the source. -/
def pyStripQuotes (s : String) : String := ⟨pyStripP isQuote s.data⟩

/-- Models the Python substring test `pat in s` on character lists. -/
def containsSeq (pat : List Char) : List Char → Bool
  | [] => pat.isEmpty
  | c :: cs => pat.isPrefixOf (c :: cs) || containsSeq pat cs

/-- Models the Python substring test `pat in s` on strings (line 129). -/
def strContains (s pat : String) : Bool := containsSeq pat.data s.data

/-- Index of the first occurrence of `pat` in a list, if any occurrence exists. -/
def firstIdxOf (pat : List Char) : List Char → Option Nat
  | [] => if pat.isEmpty then some 0 else none
  | c :: cs =>
    if pat.isPrefixOf (c :: cs) then some 0
    else (firstIdxOf pat cs).map (· + 1)

/-- Fuel-indexed worker for `pySplit`; the fuel is an upper bound on the length
of the list being split, so the recursion is structural and kernel-reducible. -/
def pySplitAux (sep : List Char) : Nat → List Char → List (List Char)
  | _, [] => [[]]
  | 0, s => [s]
  | fuel + 1, c :: cs =>
    if sep.isPrefixOf (c :: cs) then
      [] :: pySplitAux sep fuel ((c :: cs).drop sep.length)
    else
      match pySplitAux sep fuel cs with
      | [] => [[c]]
      | t :: ts => (c :: t) :: ts

/-- Models Python `s.split(sep)` for a separator: scan left to right, cutting at
each non-overlapping occurrence of `sep`.  (Python raises on an empty
separator; the agent only ever splits on `"Final Answer:"`, which is
non-empty, so the `[s]` fallback for an empty separator is never exercised.) -/
def pySplit (sep s : List Char) : List (List Char) :=
  if sep.isEmpty then [s] else pySplitAux sep s.length s

/-- A registered capability: `name`, `description`, and `run`, which either
returns an observation string or fails with an error message (modelling a
raised Python exception carrying `str(e)`). -/
structure Tool where
  name : String
  description : String
  run : String → Except String String

/-- The literal final-answer marker checked on line 129. -/
def finalMarker : String := "Final Answer:"

/-- The literal prefix of the action line in the regex on line 133. -/
def actionLit : List Char := ("Action: " : String).data

/-- The literal separating the two capture groups in the regex on line 133. -/
def inputLit : List Char := ("\nAction Input: " : String).data

/-- The stop markers passed to the backend on every generation call (line 123). -/
def stopList : List String := ["Observation:"]

/-- The sentinel returned on line 154 for budget exhaustion and parse failure. -/
def sentinel : String := "Agent stopped (max steps reached or error)."

/-- The observation synthesized on line 149 for an unregistered tool name. -/
def notFoundMsg (name : String) : String :=
  "Error: Tool '" ++ name ++ "' not found."

/-- Models line 94, `self.tools = {t.name: t for t in tools}`, together with the
dict lookup on lines 142 and 145: on duplicate names the later registration
wins, so lookup returns the last tool carrying the requested name. -/
def lookupTool (tools : List Tool) (name : String) : Option Tool :=
  (tools.filter (fun t => t.name == name)).getLast?

/-- Models line 130, `output.split("Final Answer:")[-1].strip()`.  `split` of a
non-empty separator never returns an empty list, so the `[-1]` indexing is
total and is modelled by `getLastD`. -/
def finalAnswerText (output : String) : String :=
  pyStrip ⟨(pySplit finalMarker.data output.data).getLastD []⟩

/-- Models line 133, `re.search(r"Action: (.*?)\nAction Input: (.*)", output,
re.DOTALL)`, returning the two capture groups.  `re.search` matches at the
first occurrence of `Action: ` (a later occurrence can only be followed by a
`\nAction Input: ` occurrence that already follows the first one); the lazy
first group ends at the first subsequent occurrence of `\nAction Input: `,
and the greedy second group with DOTALL takes everything to the end. -/
def reSearchAction (output : String) : Option (String × String) :=
  match firstIdxOf actionLit output.data with
  | none => none
  | some i =>
    let rest := output.data.drop (i + actionLit.length)
    match firstIdxOf inputLit rest with
    | none => none
    | some j => some (⟨rest.take j⟩, ⟨rest.drop (j + inputLit.length)⟩)

/-- Models lines 133–139: the regex match followed by
`action_name = match.group(1).strip()` and
`action_input = match.group(2).strip().strip('"')`. -/
def parseAction (output : String) : Option (String × String) :=
  match reSearchAction output with
  | none => none
  | some (g1, g2) => some (pyStrip g1, pyStripQuotes (pyStrip g2))

/-- Models lines 142–149: registry lookup, tool invocation with exception
capture, and the unknown-tool observation. -/
def dispatch (tools : List Tool) (name input : String) : String :=
  match lookupTool tools name with
  | some t =>
    match t.run input with
    | .ok r => r
    | .error e => "Error: " ++ e
  | none => notFoundMsg name

/-- Classification of one loop iteration: a final answer (with the updated
history), a parse failure (with the updated history), or a completed
dispatch/observe cycle continuing with the extended history. -/
inductive StepOutcome where
  | final (answer : String) (history : String)
  | parseFail (history : String)
  | next (history : String)
deriving DecidableEq

/-- One iteration of the `for step in range(max_steps)` body of
`ReActAgent.run` (lines 121–152): generate, append the block to the history,
check for the final-answer marker, otherwise parse and dispatch the action and
append the observation. -/
def agentStep (llm : String → List String → String) (tools : List Tool)
    (history : String) : StepOutcome :=
  let output := llm history stopList
  let history := history ++ output ++ "\n"
  if strContains output finalMarker then
    .final (finalAnswerText output) history
  else
    match parseAction output with
    | none => .parseFail history
    | some (actionName, actionInput) =>
      .next (history ++ "Observation: " ++ dispatch tools actionName actionInput ++ "\n")

/-- The observable outcome of a run: the returned result string, the final
accumulated history, the number of generation calls made, and the history
snapshot at the start of every iteration plus the final one. -/
structure RunOutput where
  result : String
  history : String
  calls : Nat
  snapshots : List String
deriving DecidableEq

/-- The loop of `ReActAgent.run` (lines 121–154), instrumented with the
generation-call count and the per-iteration history snapshots.  A `final`
outcome returns the extracted answer; a parse failure `break`s and falls
through to the sentinel return on line 154, exactly as budget exhaustion does. -/
def runLoop (llm : String → List String → String) (tools : List Tool) :
    Nat → String → RunOutput
  | 0, history => ⟨sentinel, history, 0, [history]⟩
  | n + 1, history =>
    match agentStep llm tools history with
    | .final ans h => ⟨ans, h, 1, [history, h]⟩
    | .parseFail h => ⟨sentinel, h, 1, [history, h]⟩
    | .next h =>
      let r := runLoop llm tools n h
      ⟨r.result, r.history, r.calls + 1, history :: r.snapshots⟩

/-- Models line 95: one `name: description` line per registered tool. -/
def toolDescriptions (tools : List Tool) : String :=
  String.intercalate "\n" (tools.map (fun t => t.name ++ ": " ++ t.description))

/-- Models `self.tools.keys()` on line 107: dict keys in first-registration
order, with duplicate names collapsed to their first position. -/
def registryKeys (tools : List Tool) : List String :=
  tools.foldl (fun acc t => if acc.contains t.name then acc else acc ++ [t.name]) []

/-- The seed instructions of lines 98–117, reproduced verbatim. -/
def systemPrompt (tools : List Tool) (query : String) : String :=
  "\nAnswer the following questions as best you can. You have access to the following tools:\n\n"
    ++ toolDescriptions tools
    ++ "\n\nUse the following format:\n\nQuestion: the input question you must answer\nThought: you should always think about what to do\nAction: the action to take, should be one of ["
    ++ String.intercalate ", " (registryKeys tools)
    ++ "]\nAction Input: the input to the action\nObservation: the result of the action\n... (this Thought/Action/Action Input/Observation can repeat N times)\nThought: I now know the final answer\nFinal Answer: the final answer to the original input question\n\nBegin!\n\nQuestion: "
    ++ query
    ++ "\n"

/-- `ReActAgent.run(query, max_steps)`: seed the history with the system
prompt and run the loop. -/
def runAgent (llm : String → List String → String) (tools : List Tool)
    (query : String) (maxSteps : Nat) : RunOutput :=
  runLoop llm tools maxSteps (systemPrompt tools query)

/-- Strict prefix-extension of transcripts: the old transcript is a proper
prefix of the new one. -/
def strExt (a b : String) : Prop := a.data <+: b.data ∧ a.data.length < b.data.length

theorem strExt_of_append (a r : String) (hr : r.data ≠ []) : strExt a (a ++ r) := by
  constructor
  · rw [String.data_append]
    exact List.prefix_append _ _
  · rw [String.data_append, List.length_append]
    have := List.length_pos.mpr hr
    omega

theorem agentStep_extends (llm : String → List String → String) (tools : List Tool)
    (h : String) :
    match agentStep llm tools h with
    | .final _ h2 => h2 = h ++ llm h stopList ++ "\n"
    | .parseFail h2 => h2 = h ++ llm h stopList ++ "\n"
    | .next h2 => ∃ obs : String,
        h2 = h ++ llm h stopList ++ "\n" ++ "Observation: " ++ obs ++ "\n" := by
  unfold agentStep
  cases hc : strContains (llm h stopList) finalMarker with
  | true => simp [hc]
  | false =>
    cases hp : parseAction (llm h stopList) with
    | none => simp [hc, hp]
    | some a =>
      cases a with
      | mk nm inp =>
        simp only [hc, hp, Bool.false_eq_true, if_false]
        exact ⟨dispatch tools nm inp, rfl⟩

theorem runLoop_calls_le (llm : String → List String → String) (tools : List Tool) :
    ∀ (n : Nat) (h : String), (runLoop llm tools n h).calls ≤ n := by
  intro n
  induction n with
  | zero => intro h; simp [runLoop]
  | succ m ih =>
    intro h
    simp only [runLoop]
    cases agentStep llm tools h with
    | final a h2 => simp
    | parseFail h2 => simp
    | next h2 => simpa using Nat.succ_le_succ (ih h2)

theorem runLoop_calls_pos (llm : String → List String → String) (tools : List Tool)
    (n : Nat) (h : String) : 1 ≤ (runLoop llm tools (n + 1) h).calls := by
  simp only [runLoop]
  cases agentStep llm tools h with
  | final a h2 => simp
  | parseFail h2 => simp
  | next h2 => simp

theorem runLoop_snap_head (llm : String → List String → String) (tools : List Tool) :
    ∀ (n : Nat) (h : String), (runLoop llm tools n h).snapshots.head? = some h := by
  intro n h
  cases n with
  | zero => simp [runLoop]
  | succ m =>
    simp only [runLoop]
    cases agentStep llm tools h with
    | final a h2 => simp
    | parseFail h2 => simp
    | next h2 => simp

theorem runLoop_chain (llm : String → List String → String) (tools : List Tool) :
    ∀ (n : Nat) (h : String), List.Chain' strExt (runLoop llm tools n h).snapshots := by
  intro n
  induction n with
  | zero => intro h; simp [runLoop]
  | succ m ih =>
    intro h
    have hext := agentStep_extends llm tools h
    simp only [runLoop]
    cases hstep : agentStep llm tools h with
    | final a h2 =>
      rw [hstep] at hext
      simp only [List.chain'_cons, List.chain'_singleton, and_true]
      rw [hext, String.append_assoc]
      exact strExt_of_append _ _ (by simp [String.data_append])
    | parseFail h2 =>
      rw [hstep] at hext
      simp only [List.chain'_cons, List.chain'_singleton, and_true]
      rw [hext, String.append_assoc]
      exact strExt_of_append _ _ (by simp [String.data_append])
    | next h2 =>
      rw [hstep] at hext
      obtain ⟨obs, hobs⟩ := hext
      simp only [List.chain'_cons']
      refine ⟨?_, ih h2⟩
      intro y hy
      rw [runLoop_snap_head] at hy
      have hy' : y = h2 := by simpa using hy.symm
      subst hy'
      rw [hobs, String.append_assoc, String.append_assoc, String.append_assoc,
        String.append_assoc]
      exact strExt_of_append _ _ (by simp [String.data_append])

theorem runLoop_parseFail (llm : String → List String → String) (tools : List Tool)
    (n : Nat) (h : String)
    (hnf : strContains (llm h stopList) finalMarker = false)
    (hpa : parseAction (llm h stopList) = none) :
    runLoop llm tools (n + 1) h =
      ⟨sentinel, h ++ llm h stopList ++ "\n", 1, [h, h ++ llm h stopList ++ "\n"]⟩ := by
  have hstep : agentStep llm tools h = .parseFail (h ++ llm h stopList ++ "\n") := by
    unfold agentStep
    simp [hnf, hpa]
  simp [runLoop, hstep]

theorem runLoop_next (llm : String → List String → String) (tools : List Tool)
    (n : Nat) (h h2 : String) (hstep : agentStep llm tools h = .next h2) :
    runLoop llm tools (n + 1) h =
      ⟨(runLoop llm tools n h2).result, (runLoop llm tools n h2).history,
        (runLoop llm tools n h2).calls + 1, h :: (runLoop llm tools n h2).snapshots⟩ := by
  simp only [runLoop, hstep]

theorem runLoop_one_no_final (llm : String → List String → String) (tools : List Tool)
    (h : String) (hnf : strContains (llm h stopList) finalMarker = false) :
    (runLoop llm tools 1 h).calls = 1 ∧ (runLoop llm tools 1 h).result = sentinel := by
  cases hpa : parseAction (llm h stopList) with
  | none =>
    rw [runLoop_parseFail llm tools 0 h hnf hpa]
    exact ⟨rfl, rfl⟩
  | some a =>
    obtain ⟨nm, inp⟩ := a
    have hstep : agentStep llm tools h =
        .next (h ++ llm h stopList ++ "\n" ++ "Observation: " ++
          dispatch tools nm inp ++ "\n") := by
      unfold agentStep
      simp [hnf, hpa]
    rw [runLoop_next llm tools 0 h _ hstep]
    exact ⟨rfl, rfl⟩

/-- Claim C4: a generated block containing neither the final-answer marker nor
the action pattern terminates the run immediately with the sentinel result:
exactly one generation call was made (so the block is not retried and no
further generation happens), and the final history is just the previous
history plus the block — no observation was appended, so no tool was
dispatched. -/
theorem parse_failure_aborts (llm : String → List String → String) (tools : List Tool)
    (n : Nat) (h : String)
    (hnf : strContains (llm h stopList) finalMarker = false)
    (hpa : parseAction (llm h stopList) = none) :
    runLoop llm tools (n + 1) h =
      ⟨sentinel, h ++ llm h stopList ++ "\n", 1, [h, h ++ llm h stopList ++ "\n"]⟩ :=
  runLoop_parseFail llm tools n h hnf hpa

theorem parse_failure_aborts_witness :
    runLoop (fun _ _ => "gibberish output") [] 4 "H" =
      ⟨sentinel, "H" ++ "gibberish output" ++ "\n", 1,
        ["H", "H" ++ "gibberish output" ++ "\n"]⟩ :=
  parse_failure_aborts (fun _ _ => "gibberish output") [] 3 "H" (by decide) (by decide)

/-- Claim C5: an action naming an unregistered capability does not abort the
run: the step completes with an observation naming the missing tool appended
to the transcript, the run with remaining budget continues into the loop on
the extended transcript (same result, one more generation call), and that
continuation makes at least one further generation call. -/
theorem unknown_tool_recovers (llm : String → List String → String) (tools : List Tool)
    (n : Nat) (h : String) (name input : String)
    (hnf : strContains (llm h stopList) finalMarker = false)
    (hpa : parseAction (llm h stopList) = some (name, input))
    (hlk : lookupTool tools name = none) :
    agentStep llm tools h =
      .next (h ++ llm h stopList ++ "\n" ++ "Observation: " ++ notFoundMsg name ++ "\n") ∧
    (runLoop llm tools (n + 2) h).result =
      (runLoop llm tools (n + 1)
        (h ++ llm h stopList ++ "\n" ++ "Observation: " ++ notFoundMsg name ++ "\n")).result ∧
    (runLoop llm tools (n + 2) h).calls =
      (runLoop llm tools (n + 1)
        (h ++ llm h stopList ++ "\n" ++ "Observation: " ++ notFoundMsg name ++ "\n")).calls + 1 ∧
    1 ≤ (runLoop llm tools (n + 1)
        (h ++ llm h stopList ++ "\n" ++ "Observation: " ++ notFoundMsg name ++ "\n")).calls := by
  have hstep : agentStep llm tools h =
      .next (h ++ llm h stopList ++ "\n" ++ "Observation: " ++ notFoundMsg name ++ "\n") := by
    unfold agentStep
    simp [hnf, hpa, dispatch, hlk]
  have hrun := runLoop_next llm tools (n + 1) h _ hstep
  refine ⟨hstep, ?_, ?_, runLoop_calls_pos llm tools n _⟩
  · rw [show n + 2 = n + 1 + 1 from rfl, hrun]
  · rw [show n + 2 = n + 1 + 1 from rfl, hrun]

theorem unknown_tool_recovers_witness :
    agentStep (fun _ _ => "Action: Nope\nAction Input: \"z\"") [] "H" =
      .next ("H" ++ "Action: Nope\nAction Input: \"z\"" ++ "\n" ++ "Observation: " ++
        notFoundMsg "Nope" ++ "\n") :=
  (unknown_tool_recovers (fun _ _ => "Action: Nope\nAction Input: \"z\"") [] 0 "H"
    "Nope" "z" (by decide) (by decide) rfl).1

/-- Claim C6: a dispatched capability that raises does not abort the run: the
failure is converted to the observation string `Error: ` followed by the
failure detail, appended to the transcript, and the run with remaining budget
continues into the loop on the extended transcript, making at least one
further generation call. -/
theorem tool_error_recovers (llm : String → List String → String) (tools : List Tool)
    (n : Nat) (h : String) (name input : String) (tl : Tool) (e : String)
    (hnf : strContains (llm h stopList) finalMarker = false)
    (hpa : parseAction (llm h stopList) = some (name, input))
    (hlk : lookupTool tools name = some tl)
    (hrun : tl.run input = .error e) :
    agentStep llm tools h =
      .next (h ++ llm h stopList ++ "\n" ++ "Observation: " ++ ("Error: " ++ e) ++ "\n") ∧
    (runLoop llm tools (n + 2) h).result =
      (runLoop llm tools (n + 1)
        (h ++ llm h stopList ++ "\n" ++ "Observation: " ++ ("Error: " ++ e) ++ "\n")).result ∧
    (runLoop llm tools (n + 2) h).calls =
      (runLoop llm tools (n + 1)
        (h ++ llm h stopList ++ "\n" ++ "Observation: " ++ ("Error: " ++ e) ++ "\n")).calls + 1 ∧
    1 ≤ (runLoop llm tools (n + 1)
        (h ++ llm h stopList ++ "\n" ++ "Observation: " ++ ("Error: " ++ e) ++ "\n")).calls := by
  have hstep : agentStep llm tools h =
      .next (h ++ llm h stopList ++ "\n" ++ "Observation: " ++ ("Error: " ++ e) ++ "\n") := by
    unfold agentStep
    simp [hnf, hpa, dispatch, hlk, hrun]
  have hrun2 := runLoop_next llm tools (n + 1) h _ hstep
  refine ⟨hstep, ?_, ?_, runLoop_calls_pos llm tools n _⟩
  · rw [show n + 2 = n + 1 + 1 from rfl, hrun2]
  · rw [show n + 2 = n + 1 + 1 from rfl, hrun2]

theorem tool_error_recovers_witness :
    agentStep (fun _ _ => "Action: Boom\nAction Input: \"z\"")
        [Tool.mk "Boom" "always fails" (fun _ => Except.error "kaboom")] "H" =
      .next ("H" ++ "Action: Boom\nAction Input: \"z\"" ++ "\n" ++ "Observation: " ++
        ("Error: " ++ "kaboom") ++ "\n") :=
  (tool_error_recovers (fun _ _ => "Action: Boom\nAction Input: \"z\"")
    [Tool.mk "Boom" "always fails" (fun _ => Except.error "kaboom")] 0 "H" "Boom" "z"
    (Tool.mk "Boom" "always fails" (fun _ => Except.error "kaboom")) "kaboom"
    (by decide) (by decide) rfl rfl).1

/-- Claim C7: every run makes at most `maxSteps` generation calls, and with
`maxSteps = 1` and a backend that never emits the final-answer marker the run
makes exactly one generation call (one full cycle, no second call) and
returns the budget-exhausted sentinel. -/
theorem step_budget_bound (llm : String → List String → String) (tools : List Tool)
    (q : String)
    (hnf : ∀ p : String, strContains (llm p stopList) finalMarker = false) :
    (∀ (llm2 : String → List String → String) (m : Nat),
      (runAgent llm2 tools q m).calls ≤ m) ∧
    (runAgent llm tools q 1).calls = 1 ∧
    (runAgent llm tools q 1).result = sentinel :=
  ⟨fun llm2 m => runLoop_calls_le llm2 tools m (systemPrompt tools q),
    (runLoop_one_no_final llm tools (systemPrompt tools q) (hnf _)).1,
    (runLoop_one_no_final llm tools (systemPrompt tools q) (hnf _)).2⟩

theorem step_budget_bound_witness :
    (runAgent (fun _ _ => "Action: A\nAction Input: \"b\"") [] "Q" 1).calls = 1 ∧
    (runAgent (fun _ _ => "Action: A\nAction Input: \"b\"") [] "Q" 1).result = sentinel :=
  (step_budget_bound (fun _ _ => "Action: A\nAction Input: \"b\"") [] "Q"
    (fun _ => rfl)).2

/-- Claim C8: within one run the transcript is append-only.  First conjunct:
the history snapshots taken at every iteration form a chain under strict
prefix-extension, so no already-appended segment is ever mutated or removed.
Second conjunct: each iteration appends exactly the one generated block (plus
the newline separator), and a dispatching iteration additionally appends
exactly one observation segment. -/
theorem transcript_append_only (llm : String → List String → String) (tools : List Tool)
    (n : Nat) (h : String) :
    List.Chain' strExt (runLoop llm tools n h).snapshots ∧
    (∀ h0 : String,
      match agentStep llm tools h0 with
      | .final _ h2 => h2 = h0 ++ llm h0 stopList ++ "\n"
      | .parseFail h2 => h2 = h0 ++ llm h0 stopList ++ "\n"
      | .next h2 => ∃ obs : String,
          h2 = h0 ++ llm h0 stopList ++ "\n" ++ "Observation: " ++ obs ++ "\n") :=
  ⟨runLoop_chain llm tools n h, fun h0 => agentStep_extends llm tools h0⟩

/-- Claim C9: the run is a deterministic function of its inputs — two runs
with extensionally equal backends, equal tool lists, the same query and the
same step budget produce identical outputs (result, final transcript, call
count and snapshots), byte for byte. -/
theorem run_deterministic (llm1 llm2 : String → List String → String)
    (tools1 tools2 : List Tool) (q : String) (n : Nat)
    (hllm : ∀ (p : String) (st : List String), llm1 p st = llm2 p st)
    (htools : tools1 = tools2) :
    runAgent llm1 tools1 q n = runAgent llm2 tools2 q n := by
  have h : llm1 = llm2 := funext fun p => funext fun st => hllm p st
  rw [h, htools]

theorem run_deterministic_witness :
    runAgent (fun _ _ => "Final" ++ " Answer: ok") [] "Q" 2 =
      runAgent (fun _ _ => "Final Answer: ok") [] "Q" 2 :=
  run_deterministic (fun _ _ => "Final" ++ " Answer: ok") (fun _ _ => "Final Answer: ok")
    [] [] "Q" 2 (fun _ _ => rfl) rfl

/-- Claim C10: the parse-failure abort and the budget-exhausted termination
both return the identical sentinel string, so the two non-answer terminal
outcomes cannot be distinguished from the return value alone. -/
theorem sentinel_indistinguishable (llm : String → List String → String)
    (tools : List Tool) (n : Nat) (h : String)
    (hnf : strContains (llm h stopList) finalMarker = false)
    (hpa : parseAction (llm h stopList) = none) :
    (runLoop llm tools (n + 1) h).result =
      "Agent stopped (max steps reached or error)." ∧
    ∀ (llm2 : String → List String → String) (tools2 : List Tool) (h2 : String),
      (runLoop llm2 tools2 0 h2).result =
        "Agent stopped (max steps reached or error)." := by
  refine ⟨?_, fun _ _ _ => rfl⟩
  rw [runLoop_parseFail llm tools n h hnf hpa]
  rfl


theorem sentinel_indistinguishable_witness :
    (runLoop (fun _ _ => "???") [] 1 "S").result =
      "Agent stopped (max steps reached or error)." :=
  (sentinel_indistinguishable (fun _ _ => "???") [] 0 "S" (by decide) (by decide)).1

theorem isPrefixOf_append_self (M t : List Char) : M.isPrefixOf (M ++ t) = true :=
  List.isPrefixOf_iff_prefix.mpr (List.prefix_append M t)

theorem firstIdxOf_self_append (pat Z : List Char) (h : pat ≠ []) :
    firstIdxOf pat (pat ++ Z) = some 0 := by
  cases pat with
  | nil => exact absurd rfl h
  | cons p pt =>
    have hpre := isPrefixOf_append_self (p :: pt) Z
    rw [List.cons_append] at hpre
    rw [List.cons_append]
    simp only [firstIdxOf]
    rw [if_pos hpre]

theorem firstIdxOf_head_notin (p0 : Char) (pt A B : List Char)
    (hA : A.all (fun c => !(c == p0)) = true) :
    firstIdxOf (p0 :: pt) (A ++ ((p0 :: pt) ++ B)) = some A.length := by
  induction A with
  | nil =>
    rw [List.nil_append]
    exact firstIdxOf_self_append (p0 :: pt) B (by simp)
  | cons a A2 ih =>
    simp only [List.all_cons, Bool.and_eq_true, Bool.not_eq_true'] at hA
    have ha : a ≠ p0 := by
      intro he
      rw [he] at hA
      simp at hA
    have hp : (p0 :: pt).isPrefixOf (a :: (A2 ++ ((p0 :: pt) ++ B))) = false := by
      show ((p0 == a) && pt.isPrefixOf (A2 ++ ((p0 :: pt) ++ B))) = false
      rw [beq_eq_false_iff_ne.mpr (Ne.symm ha)]
      rfl
    rw [List.cons_append]
    simp only [firstIdxOf]
    rw [if_neg (by rw [hp]; simp), ih hA.2]
    rfl

theorem reSearchAction_structured (X R : List Char)
    (hX : X.all (fun c => !(c == '\n')) = true) :
    reSearchAction ⟨actionLit ++ (X ++ (inputLit ++ R))⟩ = some (⟨X⟩, ⟨R⟩) := by
  have h1 : firstIdxOf actionLit (actionLit ++ (X ++ (inputLit ++ R))) = some 0 :=
    firstIdxOf_self_append actionLit _ (by decide)
  have h2 : (actionLit ++ (X ++ (inputLit ++ R))).drop (0 + actionLit.length) =
      X ++ (inputLit ++ R) := by
    rw [Nat.zero_add]
    exact List.drop_left _ _
  have h3 : firstIdxOf inputLit (X ++ (inputLit ++ R)) = some X.length := by
    rw [show inputLit = '\n' :: ("Action Input: " : String).data from rfl]
    exact firstIdxOf_head_notin '\n' ("Action Input: " : String).data X R hX
  have h4 : (X ++ (inputLit ++ R)).take X.length = X := List.take_left _ _
  have h5 : (X ++ (inputLit ++ R)).drop (X.length + inputLit.length) = R := by
    rw [← List.append_assoc,
      show X.length + inputLit.length = (X ++ inputLit).length by simp]
    exact List.drop_left _ _
  unfold reSearchAction
  simp only [h1, h2, h3, h4, h5]

theorem dropWhile_eq_self_of_head (p : Char → Bool) (l : List Char)
    (h : l.head?.all (fun c => !(p c)) = true) : l.dropWhile p = l := by
  cases l with
  | nil => rfl
  | cons a l2 =>
    simp only [List.head?_cons, Option.all_some, Bool.not_eq_true'] at h
    exact List.dropWhile_cons_of_neg (by simp [h])

theorem stripP_id_of_ends (p : Char → Bool) (l : List Char)
    (h1 : l.head?.all (fun c => !(p c)) = true)
    (h2 : l.getLast?.all (fun c => !(p c)) = true) :
    pyStripP p l = l := by
  unfold pyStripP
  rw [dropWhile_eq_self_of_head p l h1]
  rw [dropWhile_eq_self_of_head p l.reverse (by rw [List.head?_reverse]; exact h2)]
  exact List.reverse_reverse l

theorem stripP_quoted (Y : List Char)
    (hY1 : Y.head?.all (fun c => !(c == '\"')) = true)
    (hY2 : Y.getLast?.all (fun c => !(c == '\"')) = true) :
    pyStripP isQuote ('\"' :: (Y ++ ['\"'])) = Y := by
  cases Y with
  | nil => rfl
  | cons y Y2 =>
    unfold pyStripP
    have hstep1 : ('\"' :: ((y :: Y2) ++ ['\"'])).dropWhile isQuote =
        (y :: Y2) ++ ['\"'] := by
      rw [List.dropWhile_cons_of_pos (by decide), List.cons_append]
      refine List.dropWhile_cons_of_neg ?_
      simp only [List.head?_cons, Option.all_some, Bool.not_eq_true'] at hY1
      simp [isQuote, hY1]
    rw [hstep1, List.reverse_append,
      show (['\"'] : List Char).reverse = ['\"'] from rfl, List.singleton_append,
      List.dropWhile_cons_of_pos (by decide),
      dropWhile_eq_self_of_head isQuote (y :: Y2).reverse
        (by rw [List.head?_reverse]; exact hY2)]
    exact List.reverse_reverse _

/-- Claim C2: a block of the two-line action shape, with no newline in the
name part `X` and the input `Y` enclosed in one layer of double quotes with
`Y` itself not starting or ending in a quote, parses to the action whose name
is `X` trimmed of surrounding whitespace and whose input is exactly `Y` (the
enclosing quotes stripped).  This holds whether or not anything follows the
quoted input; the greedy second group takes the rest of the block. -/
theorem action_pattern_parse (X Y : List Char)
    (hX : X.all (fun c => !(c == '\n')) = true)
    (hY1 : Y.head?.all (fun c => !(c == '\"')) = true)
    (hY2 : Y.getLast?.all (fun c => !(c == '\"')) = true) :
    parseAction ⟨actionLit ++ (X ++ (inputLit ++ ('\"' :: (Y ++ ['\"']))))⟩ =
      some (⟨pyStripP isPySpace X⟩, ⟨Y⟩) := by
  unfold parseAction
  rw [reSearchAction_structured X ('\"' :: (Y ++ ['\"'])) hX]
  show some (pyStrip ⟨X⟩, pyStripQuotes (pyStrip ⟨'\"' :: (Y ++ ['\"'])⟩)) =
    some (⟨pyStripP isPySpace X⟩, ⟨Y⟩)
  have hlast : ('\"' :: (Y ++ ['\"'])).getLast? = some '\"' := by
    rw [show '\"' :: (Y ++ ['\"']) = ('\"' :: Y) ++ ['\"'] from by rw [List.cons_append],
      List.getLast?_append_of_ne_nil ('\"' :: Y) (by simp)]
    rfl
  have hid : pyStripP isPySpace ('\"' :: (Y ++ ['\"'])) = '\"' :: (Y ++ ['\"']) :=
    stripP_id_of_ends isPySpace _ rfl (by rw [hlast]; rfl)
  have hq : pyStripQuotes (pyStrip ⟨'\"' :: (Y ++ ['\"'])⟩) = ⟨Y⟩ := by
    show (⟨pyStripP isQuote (pyStripP isPySpace ('\"' :: (Y ++ ['\"'])))⟩ : String) = ⟨Y⟩
    rw [hid, stripP_quoted Y hY1 hY2]
  rw [hq]
  rfl

theorem action_pattern_parse_witness :
    parseAction
        ⟨actionLit ++ ("Calculator".data ++ (inputLit ++ ('\"' :: ("2 + 2".data ++ ['\"']))))⟩ =
      some ("Calculator", "2 + 2") :=
  (action_pattern_parse "Calculator".data "2 + 2".data (by decide) (by decide)
    (by decide)).trans (by decide)

/-- Claim C3 is refuted by the code: `.strip('"')` removes every leading and
every trailing quote character independently, not one layer and not only when
both ends are quoted.  A doubly-quoted input loses both layers, and an input
quoted on one end only still loses that quote. -/
theorem quote_strip_counterexample :
    parseAction ("Action: T\nAction Input: \"\"42\"\"" : String) = some ("T", "42") ∧
    ("42" : String) ≠ "\"42\"" ∧
    parseAction ("Action: T\nAction Input: \"abc" : String) = some ("T", "abc") ∧
    ("abc" : String) ≠ "\"abc" := by decide

theorem stripP_decomp (p : Char → Bool) (l : List Char) :
    l = l.takeWhile p ++
      (pyStripP p l ++ ((l.dropWhile p).reverse.takeWhile p).reverse) := by
  conv_lhs => rw [← List.takeWhile_append_dropWhile p l]
  congr 1
  unfold pyStripP
  conv_lhs => rw [← List.reverse_reverse (l.dropWhile p)]
  conv_lhs => rw [← List.takeWhile_append_dropWhile p (l.dropWhile p).reverse]
  rw [List.reverse_append]

theorem takeWhile_all (p : Char → Bool) (l : List Char) :
    (l.takeWhile p).all p = true := by
  induction l with
  | nil => rfl
  | cons a l2 ih =>
    cases ha : p a with
    | true => rw [List.takeWhile_cons_of_pos ha]; simp [ha, ih]
    | false => rw [List.takeWhile_cons_of_neg (by simp [ha])]; rfl

theorem dropWhile_head?_false (p : Char → Bool) (l : List Char) (a : Char)
    (h : (l.dropWhile p).head? = some a) : p a = false := by
  induction l with
  | nil => simp [List.dropWhile] at h
  | cons b bs ih =>
    cases hb : p b with
    | true => rw [List.dropWhile_cons_of_pos hb] at h; exact ih h
    | false =>
      rw [List.dropWhile_cons_of_neg (by simp [hb])] at h
      simp only [List.head?_cons, Option.some.injEq] at h
      rw [← h]
      exact hb

theorem pyStripP_getLast (p : Char → Bool) (l : List Char) :
    (pyStripP p l).getLast?.all (fun c => !(p c)) = true := by
  unfold pyStripP
  rw [List.getLast?_reverse]
  cases hm : ((l.dropWhile p).reverse.dropWhile p).head? with
  | none => rfl
  | some a =>
    have := dropWhile_head?_false p (l.dropWhile p).reverse a hm
    simp [Option.all_some, this]

theorem pyStripP_head (p : Char → Bool) (l : List Char) :
    (pyStripP p l).head?.all (fun c => !(p c)) = true := by
  cases hc : pyStripP p l with
  | nil => rfl
  | cons c cs =>
    have hdec : l.dropWhile p =
        pyStripP p l ++ ((l.dropWhile p).reverse.takeWhile p).reverse :=
      List.append_cancel_left
        ((List.takeWhile_append_dropWhile p l).trans (stripP_decomp p l))
    have hd : (l.dropWhile p).head? = some c := by
      rw [hdec, hc]
      rfl
    have := dropWhile_head?_false p l c hd
    simp [Option.all_some, this]

/-- Claim C3, amended to what the code does: for a block of the action shape,
the parsed input is the whitespace-trimmed remainder after `Action Input: `
with every leading and every trailing double-quote character removed — the
two ends are stripped independently (a one-sided quote is removed, and all
layers of a multiply-quoted input are removed).  The conjuncts exhibit the
decomposition of the trimmed remainder into a leading all-quote run, the
parsed input (which neither starts nor ends with a quote), and a trailing
all-quote run. -/
theorem quote_strip_all_layers (X R : List Char)
    (hX : X.all (fun c => !(c == '\n')) = true) :
    parseAction ⟨actionLit ++ (X ++ (inputLit ++ R))⟩ =
      some (⟨pyStripP isPySpace X⟩, ⟨pyStripP isQuote (pyStripP isPySpace R)⟩) ∧
    pyStripP isPySpace R =
      (pyStripP isPySpace R).takeWhile isQuote ++
        (pyStripP isQuote (pyStripP isPySpace R) ++
          (((pyStripP isPySpace R).dropWhile isQuote).reverse.takeWhile isQuote).reverse) ∧
    ((pyStripP isPySpace R).takeWhile isQuote).all isQuote = true ∧
    ((((pyStripP isPySpace R).dropWhile isQuote).reverse.takeWhile isQuote).reverse).all
      isQuote = true ∧
    (pyStripP isQuote (pyStripP isPySpace R)).head?.all (fun c => !(isQuote c)) = true ∧
    (pyStripP isQuote (pyStripP isPySpace R)).getLast?.all (fun c => !(isQuote c)) = true := by
  refine ⟨?_, stripP_decomp isQuote _, takeWhile_all isQuote _, ?_,
    pyStripP_head isQuote _, pyStripP_getLast isQuote _⟩
  · unfold parseAction
    rw [reSearchAction_structured X R hX]
    rfl
  · rw [List.all_reverse]
    exact takeWhile_all isQuote _

theorem quote_strip_all_layers_witness :
    parseAction ⟨actionLit ++ ("T".data ++ (inputLit ++ "  \"\"42\"\"  ".data))⟩ =
      some (⟨pyStripP isPySpace "T".data⟩,
        ⟨pyStripP isQuote (pyStripP isPySpace "  \"\"42\"\"  ".data)⟩) :=
  (quote_strip_all_layers "T".data "  \"\"42\"\"  ".data (by decide)).1

theorem containsSeq_decomp (M : List Char) (hM : M ≠ []) (u t : List Char) :
    containsSeq M (u ++ (M ++ t)) = true := by
  induction u with
  | nil =>
    rw [List.nil_append]
    cases M with
    | nil => exact absurd rfl hM
    | cons m ms =>
      rw [List.cons_append]
      simp only [containsSeq]
      have hpre := isPrefixOf_append_self (m :: ms) t
      rw [List.cons_append] at hpre
      rw [hpre]
      rfl
  | cons a u2 ih =>
    rw [List.cons_append]
    simp only [containsSeq]
    rw [ih]
    exact Bool.or_true _

theorem pySplitAux_ne_nil (sep : List Char) : ∀ (f : Nat) (s : List Char),
    pySplitAux sep f s ≠ [] := by
  intro f
  induction f with
  | zero =>
    intro s
    cases s with
    | nil => simp [pySplitAux]
    | cons c cs => simp [pySplitAux]
  | succ n ih =>
    intro s
    cases s with
    | nil => simp [pySplitAux]
    | cons c cs =>
      simp only [pySplitAux]
      by_cases hp : sep.isPrefixOf (c :: cs) = true
      · rw [if_pos hp]
        simp
      · rw [if_neg hp]
        cases hps : pySplitAux sep n cs with
        | nil => exact absurd hps (ih cs)
        | cons t ts => simp

theorem pySplitAux_no_occur (sep : List Char) : ∀ (f : Nat) (s : List Char),
    s.length ≤ f → containsSeq sep s = false → pySplitAux sep f s = [s] := by
  intro f
  induction f with
  | zero =>
    intro s hf hnc
    cases s with
    | nil => simp [pySplitAux]
    | cons c cs => simp at hf
  | succ n ih =>
    intro s hf hnc
    cases s with
    | nil => simp [pySplitAux]
    | cons c cs =>
      simp only [containsSeq, Bool.or_eq_false_iff] at hnc
      simp only [pySplitAux]
      rw [if_neg (by rw [hnc.1]; simp)]
      rw [ih cs (by simp only [List.length_cons] at hf; omega) hnc.2]

theorem pySplitAux_two_le (sep : List Char) (hsep : sep ≠ []) :
    ∀ (f : Nat) (s : List Char), s.length ≤ f → containsSeq sep s = true →
      2 ≤ (pySplitAux sep f s).length := by
  intro f
  induction f with
  | zero =>
    intro s hf hc
    cases s with
    | nil =>
      simp only [containsSeq, List.isEmpty_iff] at hc
      exact absurd hc hsep
    | cons c cs => simp at hf
  | succ n ih =>
    intro s hf hc
    cases s with
    | nil =>
      simp only [containsSeq, List.isEmpty_iff] at hc
      exact absurd hc hsep
    | cons c cs =>
      simp only [pySplitAux]
      by_cases hp : sep.isPrefixOf (c :: cs) = true
      · rw [if_pos hp]
        cases hps : pySplitAux sep n ((c :: cs).drop sep.length) with
        | nil => exact absurd hps (pySplitAux_ne_nil sep n _)
        | cons t ts => simp [hps]
      · rw [if_neg hp]
        simp only [containsSeq, Bool.or_eq_true] at hc
        have hc2 : containsSeq sep cs = true := by
          cases hc with
          | inl hl => exact absurd hl hp
          | inr hr => exact hr
        have h2 := ih cs (by simp only [List.length_cons] at hf; omega) hc2
        cases hps : pySplitAux sep n cs with
        | nil => exact absurd hps (pySplitAux_ne_nil sep n cs)
        | cons t ts =>
          rw [hps] at h2
          cases ts with
          | nil => simp at h2
          | cons t2 ts2 => simp [hps]

theorem getLastD_of_ne_nil (l : List (List Char)) (hl : l ≠ []) (a b : List Char) :
    l.getLastD a = l.getLastD b := by
  cases l with
  | nil => exact absurd rfl hl
  | cons x xs => rw [List.getLastD_cons, List.getLastD_cons]

theorem pySplitAux_getLast (M : List Char) (hM : M ≠ [])
    (hno : ∀ (s : List Char) (d : Nat), M.isPrefixOf s = true → 0 < d →
      d < M.length → M.isPrefixOf (s.drop d) = false) :
    ∀ (f : Nat) (s u t : List Char), s.length ≤ f → s = u ++ (M ++ t) →
      containsSeq M t = false → (pySplitAux M f s).getLastD [] = t := by
  have hMlen : 1 ≤ M.length := List.length_pos.mpr hM
  intro f
  induction f with
  | zero =>
    intro s u t hf hs hnc
    exfalso
    have := congrArg List.length hs
    simp only [List.length_append] at this
    omega
  | succ n ih =>
    intro s u t hf hs hnc
    cases s with
    | nil =>
      exfalso
      have := congrArg List.length hs
      simp only [List.length_nil, List.length_append] at this
      omega
    | cons c cs =>
      simp only [pySplitAux]
      by_cases hp : M.isPrefixOf (c :: cs) = true
      · rw [if_pos hp, List.getLastD_cons]
        rcases Nat.lt_or_ge u.length M.length with hu | hu
        · cases u with
          | cons a u2 =>
            exfalso
            have hocc : M.isPrefixOf ((c :: cs).drop (a :: u2).length) = true := by
              rw [hs, List.drop_left]
              exact isPrefixOf_append_self M t
            have hfalse := hno (c :: cs) (a :: u2).length hp (by simp) hu
            rw [hfalse] at hocc
            exact Bool.false_ne_true hocc
          | nil =>
            rw [List.nil_append] at hs
            have hdrop : (c :: cs).drop M.length = t := by
              rw [hs]
              exact List.drop_left M t
            rw [hdrop]
            have hlen : t.length ≤ n := by
              have := congrArg List.length hs
              simp only [List.length_cons, List.length_append] at this
              simp only [List.length_cons] at hf
              omega
            rw [pySplitAux_no_occur M n t hlen hnc]
            rfl
        · have hdrop : (c :: cs).drop M.length = u.drop M.length ++ (M ++ t) := by
            rw [hs]
            exact List.drop_append_of_le_length hu
          have hlen : ((c :: cs).drop M.length).length ≤ n := by
            rw [List.length_drop]
            simp only [List.length_cons] at hf ⊢
            omega
          rw [ih ((c :: cs).drop M.length) (u.drop M.length) t hlen hdrop hnc]
      · rw [if_neg hp]
        cases u with
        | nil =>
          exfalso
          rw [List.nil_append] at hs
          rw [hs] at hp
          exact hp (isPrefixOf_append_self M t)
        | cons a u2 =>
          rw [List.cons_append] at hs
          injection hs with hca hcs
          have hlen : cs.length ≤ n := by
            simp only [List.length_cons] at hf
            omega
          have ihcs := ih cs u2 t hlen hcs hnc
          have hcont : containsSeq M cs = true := by
            rw [hcs]
            exact containsSeq_decomp M hM u2 t
          have h2 := pySplitAux_two_le M hM n cs hlen hcont
          cases hps : pySplitAux M n cs with
          | nil => exact absurd hps (pySplitAux_ne_nil M n cs)
          | cons t1 ts =>
            rw [hps] at ihcs h2
            cases ts with
            | nil => simp at h2
            | cons t2 ts2 =>
              show ((c :: t1) :: t2 :: ts2).getLastD [] = t
              rw [List.getLastD_cons] at ihcs ⊢
              rw [getLastD_of_ne_nil (t2 :: ts2) (by simp) (c :: t1) t1]
              exact ihcs

theorem marker_no_overlap (s : List Char) (d : Nat)
    (h1 : finalMarker.data.isPrefixOf s = true) (h2 : 0 < d)
    (h3 : d < finalMarker.data.length) :
    finalMarker.data.isPrefixOf (s.drop d) = false := by
  rw [List.isPrefixOf_iff_prefix] at h1
  obtain ⟨r, hr⟩ := h1
  subst hr
  cases hb : finalMarker.data.isPrefixOf ((finalMarker.data ++ r).drop d) with
  | false => rfl
  | true =>
    exfalso
    rw [List.isPrefixOf_iff_prefix] at hb
    obtain ⟨r2, hr2⟩ := hb
    have hF : ((finalMarker.data ++ r).drop d).head? = some 'F' := by
      rw [← hr2]
      rfl
    rw [List.head?_drop, List.getElem?_append_left h3] at hF
    have hall : ∀ e : Nat, e < finalMarker.data.length → 0 < e →
        finalMarker.data[e]? ≠ some 'F' := by decide
    exact hall d h3 h2 hF

/-- Claim C1: a generated block of the form `u ++ "Final Answer:" ++ t`, where
`t` contains no further occurrence of the marker (so `t` is exactly the text
after the last occurrence), is classified as a final answer — regardless of
any action pattern also present in the block — and the run returns `t`
trimmed of surrounding whitespace as the result; the final history is the
previous one plus only the block (no observation appended, so no tool was
dispatched) and exactly one generation call was made. -/
theorem final_answer_after_last_marker (llm : String → List String → String)
    (tools : List Tool) (n : Nat) (h : String) (u t : List Char)
    (hdec : (llm h stopList).data = u ++ (finalMarker.data ++ t))
    (hnc : containsSeq finalMarker.data t = false) :
    agentStep llm tools h =
      .final ⟨pyStripP isPySpace t⟩ (h ++ llm h stopList ++ "\n") ∧
    runLoop llm tools (n + 1) h =
      ⟨⟨pyStripP isPySpace t⟩, h ++ llm h stopList ++ "\n", 1,
        [h, h ++ llm h stopList ++ "\n"]⟩ := by
  have hM : finalMarker.data ≠ [] := by decide
  have hcont : strContains (llm h stopList) finalMarker = true := by
    unfold strContains
    rw [hdec]
    exact containsSeq_decomp finalMarker.data hM u t
  have hans : finalAnswerText (llm h stopList) = ⟨pyStripP isPySpace t⟩ := by
    unfold finalAnswerText pySplit
    rw [show finalMarker.data.isEmpty = false from rfl]
    simp only [Bool.false_eq_true, if_false]
    rw [pySplitAux_getLast finalMarker.data hM marker_no_overlap
      (llm h stopList).data.length (llm h stopList).data u t (le_refl _) hdec hnc]
    rfl
  have hstep : agentStep llm tools h =
      .final ⟨pyStripP isPySpace t⟩ (h ++ llm h stopList ++ "\n") := by
    unfold agentStep
    simp [hcont, hans]
  refine ⟨hstep, ?_⟩
  simp [runLoop, hstep]

theorem final_answer_after_last_marker_witness :
    agentStep
        (fun _ _ => "Action: T\nAction Input: \"x\"\nFinal Answer: wrong\nFinal Answer: 42")
        [] "Q" =
      .final "42"
        ("Q" ++ "Action: T\nAction Input: \"x\"\nFinal Answer: wrong\nFinal Answer: 42"
          ++ "\n") :=
  (final_answer_after_last_marker
    (fun _ _ => "Action: T\nAction Input: \"x\"\nFinal Answer: wrong\nFinal Answer: 42")
    [] 0 "Q" "Action: T\nAction Input: \"x\"\nFinal Answer: wrong\n".data " 42".data
    (by decide) (by decide)).1.trans (by decide)

end Agentic
